import Mathlib

/-!
Verification of the offline package builder
(src/redfish-server/sidecar-redfish/etc/scripts/create_package.py).

The Python script is shallowly embedded below.  External collaborators
(git, pip, the pathspec matcher, the tar/gzip serializers) are modelled
by their observable inputs/outputs, exactly as the script consumes them:

* git ls-tree output is a list of path strings (get_all_files) or of raw
  lines (create_archive's mode query);
* git diff-tree -z output is the NUL-separated token list the script
  parses with its while-loop (get_file_diff);
* git show is a function from path to content;
* pathspec.PathSpec.match_file is a predicate on paths, and
  PathSpec.match_files applies it to each file of the batch;
* pip's result is the has_wheels flag plus the staged wheel tree;
* tarfile/gzip receive the member stream and the gzip header mtime that
  the script hands them; the archive is modelled at that interface.

Python dicts are modelled as association lists with insertion-order
semantics (a new key is appended, an existing key is updated in place),
which is exactly the iteration/equality behaviour the script relies on.
-/

namespace CreatePackage

/-- Constant from the script: a fixed timestamp for all file metadata to
ensure deterministic builds (2025-01-01 00:00:00 UTC). -/
def FIXED_MTIME : Nat := 1735689600

/-- Python dict assignment `d[k] = v` on an association list: the first
entry with key `k` is updated in place, otherwise `(k, v)` is appended.
This is CPython's insertion-ordered dict semantics. -/
def pyDictInsert {α : Type} : List (String × α) → String → α → List (String × α)
  | [], k, v => [(k, v)]
  | p :: rest, k, v =>
    if p.1 == k then (k, v) :: rest else p :: pyDictInsert rest k v

/-- Python dict lookup `d.get(k)` on an association list. -/
def lookupDict {α : Type} (d : List (String × α)) (k : String) : Option α :=
  (d.find? (fun p => p.1 == k)).map Prod.snd

/-- Python `s.split(sep)` for a single-character separator, on the
character list of the string: `"".split` gives one empty field, and every
separator occurrence cuts a field. -/
def splitChar (sep : Char) : List Char → List (List Char)
  | [] => [[]]
  | c :: rest =>
    if c = sep then [] :: splitChar sep rest
    else
      match splitChar sep rest with
      | h :: t => (c :: h) :: t
      | [] => [[c]]

/-- Python `line.split('==')`: cut at every non-overlapping occurrence of
`==`, scanning left to right. -/
def splitOnEqEq : List Char → List (List Char)
  | '=' :: '=' :: rest => [] :: splitOnEqEq rest
  | c :: rest =>
    match splitOnEqEq rest with
    | h :: t => (c :: h) :: t
    | [] => [[c]]
  | [] => [[]]

/-- Python `str.strip()`: drop leading and trailing whitespace. -/
def pyStrip (s : String) : String :=
  ⟨((s.data.dropWhile Char.isWhitespace).reverse.dropWhile
      Char.isWhitespace).reverse⟩

/-- Python `s.startswith(pre)`. -/
def pyStartsWith (s pre : String) : Bool :=
  pre.data.isPrefixOf s.data

/-- Embedding of `parse_requirements`: parse requirements.txt content into
an (insertion-ordered) `package -> version` dict.  A line is used only if,
after stripping, it is non-empty, does not start with `#`, and splits on
`==` into exactly two parts.  (Python iterates `content.splitlines()`;
since blank lines are skipped and `strip` removes a stray `\r`, splitting
on `\n` is equivalent for the text manifests involved.) -/
def parse_requirements (content : String) : List (String × String) :=
  ((splitChar '\n' content.data).map String.mk).foldl
    (fun packages rawLine =>
      let line := pyStrip rawLine
      if line != "" && !(pyStartsWith line "#") then
        match (splitOnEqEq line.data).map String.mk with
        | [n, v] => pyDictInsert packages (pyStrip n) (pyStrip v)
        | _ => packages
      else packages)
    []

/-- Auxiliary (for stating the duplicate-handling claim): the well-formed
`name==version` pairs of a manifest in line order, without the dict's
de-duplication.  Same line discipline as `parse_requirements`. -/
def wellFormedPairs (content : String) : List (String × String) :=
  ((splitChar '\n' content.data).map String.mk).filterMap
    (fun rawLine =>
      let line := pyStrip rawLine
      if line != "" && !(pyStartsWith line "#") then
        match (splitOnEqEq line.data).map String.mk with
        | [n, v] => some (pyStrip n, pyStrip v)
        | _ => none
      else none)

/-- Python dict equality `old_reqs == new_reqs` for the association lists
produced by `parse_requirements` (whose keys are unique): same size and
the same key/value bindings, irrespective of insertion order. -/
def pyDictEq (d₁ d₂ : List (String × String)) : Bool :=
  decide (d₁.length = d₂.length)
    && d₁.all (fun pv => lookupDict d₂ pv.1 == some pv.2)
    && d₂.all (fun pv => lookupDict d₁ pv.1 == some pv.2)

/-- Embedding of `get_dependency_changes`.  A module is a triple
`(module_dir, old_content, new_content)`: the directory of a
requirements.txt found at the new revision, with the file's content at
the old and at the new revision (`get_file_content_from_git` returns ""
when the file is absent at a revision).  Mirrors the script's loop:
skip a module whose two parsed dicts are equal, otherwise keep the pins
of the new dict whose name is absent from the old dict or whose version
differs, formatted back to `name==version`; record the module only when
that list is non-empty. -/
def get_dependency_changes (modules : List (String × String × String)) :
    List (String × List String) :=
  modules.foldl
    (fun changes m =>
      let old_reqs := parse_requirements m.2.1
      let new_reqs := parse_requirements m.2.2
      if pyDictEq old_reqs new_reqs then changes
      else
        let module_changes :=
          (new_reqs.filter
            (fun pv => !(lookupDict old_reqs pv.1 == some pv.2))).map
            (fun pv => pv.1 ++ "==" ++ pv.2)
        if module_changes.isEmpty then changes
        else changes ++ [(m.1, module_changes)])
    []

/-- Specification-side description of one module's dependency delta,
following the spec's wording: the pins present in the new manifest whose
name is absent from the old manifest or whose pinned version differs, in
the order they appear in the new manifest. -/
def specModuleDelta (oldContent newContent : String) : List String :=
  ((parse_requirements newContent).filter
    (fun pv =>
      !(lookupDict (parse_requirements oldContent) pv.1 == some pv.2))).map
    (fun pv => pv.1 ++ "==" ++ pv.2)

/-- One record of `git diff-tree -r -z --no-commit-id --name-status
--diff-filter=ACMRD old new`: a status plus one path (two paths for a
rename).  The spec names the C status "Change". -/
inductive DiffRecord where
  | add (path : String)
  | change (path : String)
  | modify (path : String)
  | delete (path : String)
  | rename (oldPath newPath : String)
deriving DecidableEq, Repr

/-- NUL-separated tokens that git emits for one diff record (the rename
status carries a similarity score, e.g. `R100`). -/
def flattenRecord : DiffRecord → List String
  | DiffRecord.add p => ["A", p]
  | DiffRecord.change p => ["C", p]
  | DiffRecord.modify p => ["M", p]
  | DiffRecord.delete p => ["D", p]
  | DiffRecord.rename o n => ["R100", o, n]

/-- The token list the script actually iterates over:
`diff_result.stdout.strip('\x00').split('\x00')`.  For a non-empty diff
this is the concatenation of the records' tokens; for an empty diff,
Python's `"".split(...)` yields `[""]`, not `[]`. -/
def entriesOf (recs : List DiffRecord) : List String :=
  match recs with
  | [] => [""]
  | _ => recs.flatMap flattenRecord

/-- Embedding of the while-loop of `get_file_diff` over the token list.
Statuses starting with `R` consume two following paths (old to the
delete list, new to the add list); status `D` sends its path to the
delete list; any other status sends its path to the add list.  Reading
past the end of the token list is Python's IndexError, modelled as
`none`.  (On the POSIX host `os.sep` is `/`, so the script's
`replace(os.sep, '/')` is the identity on every path.) -/
def parseDiffEntries : List String → Option (List String × List String)
  | [] => some ([], [])
  | status :: rest =>
    if pyStartsWith status "R" then
      match rest with
      | oldPath :: newPath :: rest2 =>
        match parseDiffEntries rest2 with
        | some ad => some (newPath :: ad.1, oldPath :: ad.2)
        | none => none
      | _ => none
    else
      match rest with
      | path :: rest2 =>
        match parseDiffEntries rest2 with
        | some ad =>
          if status == "D" then some (ad.1, path :: ad.2)
          else some (path :: ad.1, ad.2)
        | none => none
      | [] => none

/-- Embedding of `get_file_diff`: files to add/update and files to delete,
computed from the diff-tree records. -/
def get_file_diff (recs : List DiffRecord) :
    Option (List String × List String) :=
  parseDiffEntries (entriesOf recs)

/-- Paths a record contributes to the add list. -/
def addPathsOf : DiffRecord → List String
  | DiffRecord.add p => [p]
  | DiffRecord.change p => [p]
  | DiffRecord.modify p => [p]
  | DiffRecord.delete _ => []
  | DiffRecord.rename _ n => [n]

/-- Paths a record contributes to the delete list. -/
def delPathsOf : DiffRecord → List String
  | DiffRecord.add _ => []
  | DiffRecord.change _ => []
  | DiffRecord.modify _ => []
  | DiffRecord.delete p => [p]
  | DiffRecord.rename o _ => [o]

/-- All paths a record mentions. -/
def pathsOf (r : DiffRecord) : List String :=
  delPathsOf r ++ addPathsOf r

/-- Result of the ignore filter: the surviving add files plus whether the
missing-.distignore warning was logged. -/
structure FilterResult where
  files : List String
  warned : Bool
deriving Repr

/-- Embedding of `filter_files_with_distignore`.  The optional argument
is the parsed .distignore: `none` when the file does not exist (the
script logs a warning and returns the list unchanged), otherwise the
pathspec matcher, modelled as the per-file predicate that
`PathSpec.match_files` applies to each file of the batch.  The script
removes from `files_to_add` every file contained in the matched set. -/
def filter_files_with_distignore (distignore : Option (String → Bool))
    (files_to_add : List String) : FilterResult :=
  match distignore with
  | none => { files := files_to_add, warned := true }
  | some spec =>
    let ignored_files := files_to_add.filter spec
    { files := files_to_add.filter (fun f => !(ignored_files.contains f))
      warned := false }

/-- One tar member as the script hands it to `tarfile.addfile` (or as
`tar.add` derives it for a staged wheel): the Python `TarInfo` fields the
script touches, plus the member's content bytes. -/
structure TarEntry where
  name : String
  size : Nat
  mode : Nat
  mtime : Nat
  uid : Nat
  gid : Nat
  uname : String
  gname : String
  content : String
deriving DecidableEq, Repr

/-- Embedding of `reset_tarinfo`: force fixed mtime, numeric owner/group
zero and symbolic owner/group "root" on a member. -/
def reset_tarinfo (ti : TarEntry) : TarEntry :=
  { ti with
    mtime := FIXED_MTIME
    uid := 0
    gid := 0
    uname := "root"
    gname := "root" }

/-- Python `s.split(None)` splitting on a predicate: cut at every
character satisfying `p`. -/
def splitPred (p : Char → Bool) : List Char → List (List Char)
  | [] => [[]]
  | c :: rest =>
    if p c then [] :: splitPred p rest
    else
      match splitPred p rest with
      | h :: t => (c :: h) :: t
      | [] => [[c]]

/-- Python `str.split()` with no argument: split on whitespace runs,
discarding empty fields. -/
def pySplitWs (s : String) : List String :=
  ((splitPred Char.isWhitespace s.data).filter (fun t => t ≠ [])).map String.mk

/-- Python `int(s, 8)` on the octal digit strings git uses for modes. -/
def parseOctal (s : String) : Nat :=
  s.data.foldl (fun n c => n * 8 + (c.toNat - 48)) 0

/-- Embedding of the mode dict of `create_archive`:
`{line.split()[3]: int(line.split()[0], 8) for line in ls_tree_lines}`.
Each `git ls-tree -r` line is `<mode> <type> <hash>\t<path>`; note that
`split()` splits on every whitespace run, so token 3 is only the part of
the path before its first space.  (A line with fewer than four tokens
would be a Python IndexError; git never emits one, since mode, type,
hash and a non-empty path are always present.) -/
def buildFileModes (lines : List String) : List (String × Nat) :=
  lines.foldl
    (fun fm line =>
      match pySplitWs line with
      | m :: _ :: _ :: p :: _ => pyDictInsert fm p (parseOctal m)
      | _ => fm)
    []

/-- One application file member: named `app/<path>`, sized by its git
content, mode looked up in the ls-tree dict with the script's `0o644`
fallback; the remaining fields are `TarInfo.__init__` defaults,
overwritten later by `reset_tarinfo`. -/
def appMember (contentOf : String → String) (fm : List (String × Nat))
    (p : String) : TarEntry :=
  { name := "app/" ++ p
    size := (contentOf p).length
    mode := (lookupDict fm p).getD 0o644
    mtime := 0
    uid := 0
    gid := 0
    uname := ""
    gname := ""
    content := contentOf p }

/-- The synthesized deletion-manifest member: `"\n".join(files_to_delete)`
in the delete list's own order, mode `0o644`. -/
def deleteMember (files_to_delete : List String) : TarEntry :=
  { name := "delete.list"
    size := (String.intercalate "\n" files_to_delete).length
    mode := 0o644
    mtime := 0
    uid := 0
    gid := 0
    uname := ""
    gname := ""
    content := String.intercalate "\n" files_to_delete }

/-- Members produced by `tar.add(wheels_dir, arcname="wheels", ...)`: the
staging directory itself under the name `wheels`, then every staged file
under `wheels/<relative path>`, in tarfile's (stable, sorted) walk
order.  A staged entry is `(relative path, stat mode, content)`; the
directory's own mode comes from the temp-dir `mkdir`. -/
def wheelMembers (wheelsTree : List (String × Nat × String))
    (wheelsDirMode : Nat) : List TarEntry :=
  { name := "wheels"
    size := 0
    mode := wheelsDirMode
    mtime := 0
    uid := 0
    gid := 0
    uname := ""
    gname := ""
    content := "" }
    :: wheelsTree.map
      (fun w =>
        { name := "wheels/" ++ w.1
          size := w.2.2.length
          mode := w.2.1
          mtime := 0
          uid := 0
          gid := 0
          uname := ""
          gname := ""
          content := w.2.2 })

/-- Python string comparison `a <= b` on character lists: lexicographic
by Unicode code point. -/
def pyStrLeData : List Char → List Char → Bool
  | [], _ => true
  | _ :: _, [] => false
  | a :: as, b :: bs =>
    if a.toNat < b.toNat then true
    else if b.toNat < a.toNat then false
    else pyStrLeData as bs

/-- Sort key of `tar_members.sort(key=lambda item: item[0].name)`. -/
def nameLe (a b : TarEntry) : Bool :=
  pyStrLeData a.name.data b.name.data

/-- What the script hands to the serializers: the mtime forced into the
gzip container header, and the tar member stream in write order. -/
structure ArchiveOutput where
  gzipMtime : Nat
  entries : List TarEntry
deriving DecidableEq, Repr

/-- Embedding of `create_archive`.  Application members (content and mode
queried from git at the new revision) and, when the delete list is
non-empty, the `delete.list` member are collected, sorted by member name
(Python's stable `list.sort` is modelled by a stable insertion sort: two
stable sorts under the same key order produce identical lists),
normalized via `reset_tarinfo` and written; when wheels were fetched the
staged wheel tree follows, every member passed through the
`filter=reset_tarinfo` hook of `tar.add`.  The gzip container is opened
with `mtime=FIXED_MTIME`. -/
def create_archive (contentOf : String → String) (lsTreeLines : List String)
    (files_to_add files_to_delete : List String)
    (wheelsTree : List (String × Nat × String)) (wheelsDirMode : Nat)
    (has_wheels : Bool) : ArchiveOutput :=
  let file_modes := buildFileModes lsTreeLines
  let appMembers := files_to_add.map (appMember contentOf file_modes)
  let tar_members :=
    appMembers
      ++ (if files_to_delete.isEmpty then [] else [deleteMember files_to_delete])
  let sortedMembers :=
    List.insertionSort (fun a b => nameLe a b = true) tar_members
  { gzipMtime := FIXED_MTIME
    entries :=
      sortedMembers.map reset_tarinfo
        ++ (if has_wheels then
              (wheelMembers wheelsTree wheelsDirMode).map reset_tarinfo
            else []) }

/-- Outcome of one run of `main` past the pre-flight checks. -/
inductive RunOutcome where
  | fatal
  | noop
  | created (out : ArchiveOutput)
deriving DecidableEq, Repr

/-- Embedding of the incremental-mode tail of `main`: compute the file
diff (an unhandled IndexError there is the `fatal` outcome), filter the
add list through .distignore, then create the archive iff
`final_files_to_add or has_wheels` holds, else report the no-op. -/
def runDeltaPackaging (contentOf : String → String) (lsTreeLines : List String)
    (recs : List DiffRecord) (wheelsTree : List (String × Nat × String))
    (wheelsDirMode : Nat) (has_wheels : Bool)
    (distignore : Option (String → Bool)) : RunOutcome :=
  match get_file_diff recs with
  | none => RunOutcome.fatal
  | some ad =>
    let final_files_to_add := (filter_files_with_distignore distignore ad.1).files
    if !final_files_to_add.isEmpty || has_wheels then
      RunOutcome.created
        (create_archive contentOf lsTreeLines final_files_to_add ad.2
          wheelsTree wheelsDirMode has_wheels)
    else RunOutcome.noop

/-- Embedding of the full-mode tail of `main`: the add list is the whole
`git ls-tree -r --name-only` listing of the target revision, the delete
list is empty, and the same filter/condition/archive steps follow. -/
def runFullPackaging (contentOf : String → String) (lsTreeLines : List String)
    (allFiles : List String) (wheelsTree : List (String × Nat × String))
    (wheelsDirMode : Nat) (has_wheels : Bool)
    (distignore : Option (String → Bool)) : Option ArchiveOutput :=
  let files_to_delete : List String := []
  let final_files_to_add := (filter_files_with_distignore distignore allFiles).files
  if !final_files_to_add.isEmpty || has_wheels then
    some
      (create_archive contentOf lsTreeLines final_files_to_add files_to_delete
        wheelsTree wheelsDirMode has_wheels)
  else none

/-- Specification-side description of the snapshot add-set: the complete
file listing of the target revision minus the paths the ignore rules
remove (nothing is removed when the exclude document is absent). -/
def specSnapshotAddSet (allFiles : List String)
    (distignore : Option (String → Bool)) : List String :=
  match distignore with
  | none => allFiles
  | some spec => allFiles.filter (fun f => !(spec f))

/-! Lemmas about the Python dict model. -/

theorem lookupDict_nil {α : Type} (k : String) :
    lookupDict ([] : List (String × α)) k = none := rfl

theorem lookupDict_cons {α : Type} (p : String × α) (d : List (String × α))
    (k : String) :
    lookupDict (p :: d) k = if p.1 = k then some p.2 else lookupDict d k := by
  by_cases h : p.1 = k
  · simp [lookupDict, List.find?_cons_of_pos, h]
  · have hb : (p.1 == k) = false := by simpa using h
    simp [lookupDict, List.find?_cons_of_neg, hb, h]

theorem lookupDict_pyDictInsert {α : Type} (d : List (String × α))
    (k k2 : String) (v : α) :
    lookupDict (pyDictInsert d k v) k2
      = if k2 = k then some v else lookupDict d k2 := by
  induction d with
  | nil =>
    simp only [pyDictInsert, lookupDict_cons, lookupDict_nil]
    by_cases h : k2 = k
    · rw [if_pos h.symm, if_pos h]
    · rw [if_neg (fun hh => h hh.symm), if_neg h]
  | cons p rest ih =>
    by_cases hp : p.1 = k
    · have hb : (p.1 == k) = true := by simpa using hp
      simp only [pyDictInsert, hb, if_true, lookupDict_cons]
      by_cases h : k2 = k
      · rw [if_pos h.symm, if_pos h]
      · rw [if_neg (fun hh => h hh.symm), if_neg h,
          if_neg (fun hh : p.1 = k2 => h (hh.symm.trans hp))]
    · have hb : (p.1 == k) = false := by simpa using hp
      simp only [pyDictInsert, hb, Bool.false_eq_true, if_false,
        lookupDict_cons, ih]
      by_cases h : k2 = k
      · subst h
        rw [if_neg hp, if_pos rfl, if_pos rfl]
      · by_cases hpk2 : p.1 = k2
        · rw [if_pos hpk2, if_neg h, if_pos hpk2]
        · rw [if_neg hpk2, if_neg h, if_neg h, if_neg hpk2]

theorem keys_pyDictInsert {α : Type} (d : List (String × α)) (k : String)
    (v : α) :
    (pyDictInsert d k v).map Prod.fst
      = if k ∈ d.map Prod.fst then d.map Prod.fst
        else d.map Prod.fst ++ [k] := by
  induction d with
  | nil => simp [pyDictInsert]
  | cons p rest ih =>
    by_cases hp : p.1 = k
    · have hb : (p.1 == k) = true := by simpa using hp
      simp [pyDictInsert, hb, hp]
    · have hb : (p.1 == k) = false := by simpa using hp
      by_cases hmem : k ∈ rest.map Prod.fst
      · simp [pyDictInsert, hb, ih, hmem, List.mem_cons]
      · have hcons : ¬(k = p.1 ∨ k ∈ rest.map Prod.fst) := by
          rintro (h1 | h2)
          · exact hp h1.symm
          · exact hmem h2
        simp only [pyDictInsert, hb, Bool.false_eq_true, if_false,
          List.map_cons, ih, if_neg hmem, List.mem_cons, if_neg hcons,
          List.cons_append]

theorem nodup_keys_pyDictInsert {α : Type} (d : List (String × α))
    (k : String) (v : α) (hd : (d.map Prod.fst).Nodup) :
    ((pyDictInsert d k v).map Prod.fst).Nodup := by
  rw [keys_pyDictInsert]
  by_cases hmem : k ∈ d.map Prod.fst
  · simpa [hmem] using hd
  · simp [hmem, List.nodup_append, hd, List.disjoint_singleton]

theorem nodup_keys_foldl_insert {α : Type} (ps : List (String × α))
    (d : List (String × α)) (hd : (d.map Prod.fst).Nodup) :
    (((ps.foldl (fun d pv => pyDictInsert d pv.1 pv.2) d)).map Prod.fst).Nodup := by
  induction ps generalizing d with
  | nil => exact hd
  | cons pv rest ih =>
    exact ih _ (nodup_keys_pyDictInsert _ _ _ hd)

theorem lookupDict_foldl_insert {α : Type} (ps : List (String × α))
    (d : List (String × α)) (k : String) :
    lookupDict (ps.foldl (fun d pv => pyDictInsert d pv.1 pv.2) d) k
      = match ps.reverse.find? (fun pv => pv.1 == k) with
        | some pv => some pv.2
        | none => lookupDict d k := by
  induction ps generalizing d with
  | nil => rfl
  | cons pv rest ih =>
    simp only [List.foldl_cons, List.reverse_cons, ih, List.find?_append]
    cases hf : rest.reverse.find? (fun q => q.1 == k) with
    | some q => simp
    | none =>
      simp only [Option.none_or]
      rw [lookupDict_pyDictInsert]
      by_cases hk : pv.1 = k
      · have hb : (pv.1 == k) = true := by simpa using hk
        simp [List.find?_cons, hb, hk]
      · have hb : (pv.1 == k) = false := by simpa using hk
        rw [if_neg (fun hh : k = pv.1 => hk hh.symm)]
        simp [List.find?_cons, hb]

theorem parse_foldl_body_eq (lines : List String)
    (d : List (String × String)) :
    lines.foldl
      (fun packages rawLine =>
        let line := pyStrip rawLine
        if line != "" && !(pyStartsWith line "#") then
          match (splitOnEqEq line.data).map String.mk with
          | [n, v] => pyDictInsert packages (pyStrip n) (pyStrip v)
          | _ => packages
        else packages) d
    = (lines.filterMap
        (fun rawLine =>
          let line := pyStrip rawLine
          if line != "" && !(pyStartsWith line "#") then
            match (splitOnEqEq line.data).map String.mk with
            | [n, v] => some (pyStrip n, pyStrip v)
            | _ => none
          else none)).foldl (fun d pv => pyDictInsert d pv.1 pv.2) d := by
  induction lines generalizing d with
  | nil => rfl
  | cons l ls ih =>
    simp only [List.foldl_cons, List.filterMap_cons]
    by_cases hc : (pyStrip l != "" && !(pyStartsWith (pyStrip l) "#")) = true
    · simp only [hc, if_true]
      rcases hm : (splitOnEqEq (pyStrip l).data).map String.mk with
        _ | ⟨n, _ | ⟨v, _ | ⟨w, t⟩⟩⟩ <;>
        simp only [hm] <;> exact ih _
    · have hc2 : (pyStrip l != "" && !(pyStartsWith (pyStrip l) "#")) = false := by
        simpa using hc
      simp only [hc2, Bool.false_eq_true, if_false]
      exact ih _

theorem parse_requirements_eq_foldl (content : String) :
    parse_requirements content
      = (wellFormedPairs content).foldl
          (fun d pv => pyDictInsert d pv.1 pv.2) [] := by
  unfold parse_requirements wellFormedPairs
  exact parse_foldl_body_eq _ _

theorem nodup_keys_parse_requirements (content : String) :
    ((parse_requirements content).map Prod.fst).Nodup := by
  rw [parse_requirements_eq_foldl]
  exact nodup_keys_foldl_insert _ [] (by simp)

theorem lookupDict_parse_requirements (content : String) (name : String) :
    lookupDict (parse_requirements content) name
      = ((wellFormedPairs content).reverse.find?
          (fun pv => pv.1 == name)).map Prod.snd := by
  rw [parse_requirements_eq_foldl, lookupDict_foldl_insert]
  cases hf : (wellFormedPairs content).reverse.find? (fun pv => pv.1 == name) with
  | some q => rfl
  | none => rfl

/-! Lemmas about the dependency-delta resolver. -/

theorem pyDictEq_lookup (d₁ d₂ : List (String × String))
    (h : pyDictEq d₁ d₂ = true) :
    ∀ pv ∈ d₂, lookupDict d₁ pv.1 = some pv.2 := by
  intro pv hm
  rw [pyDictEq, Bool.and_eq_true] at h
  have h2 := h.2
  rw [List.all_eq_true] at h2
  simpa using h2 pv hm

theorem specModuleDelta_nil_of_pyDictEq (oldContent newContent : String)
    (h : pyDictEq (parse_requirements oldContent)
        (parse_requirements newContent) = true) :
    specModuleDelta oldContent newContent = [] := by
  unfold specModuleDelta
  rw [List.map_eq_nil_iff, List.filter_eq_nil_iff]
  intro pv hm
  simp [pyDictEq_lookup _ _ h pv hm]

theorem get_dependency_changes_foldl
    (ms : List (String × String × String))
    (acc : List (String × List String)) :
    ms.foldl
      (fun changes m =>
        if pyDictEq (parse_requirements m.2.1) (parse_requirements m.2.2) then
          changes
        else
          if (specModuleDelta m.2.1 m.2.2).isEmpty then changes
          else changes ++ [(m.1, specModuleDelta m.2.1 m.2.2)]) acc
    = acc ++ ms.filterMap
        (fun m =>
          if (specModuleDelta m.2.1 m.2.2).isEmpty then none
          else some (m.1, specModuleDelta m.2.1 m.2.2)) := by
  induction ms generalizing acc with
  | nil => simp
  | cons m rest ih =>
    simp only [List.foldl_cons, List.filterMap_cons]
    by_cases he : pyDictEq (parse_requirements m.2.1) (parse_requirements m.2.2) = true
    · have hd : specModuleDelta m.2.1 m.2.2 = [] :=
        specModuleDelta_nil_of_pyDictEq _ _ he
      simp only [he, if_true, hd, List.isEmpty_nil]
      exact ih acc
    · have he2 : pyDictEq (parse_requirements m.2.1) (parse_requirements m.2.2) = false := by
        simpa using he
      simp only [he2, Bool.false_eq_true, if_false]
      by_cases hne : (specModuleDelta m.2.1 m.2.2).isEmpty = true
      · simp only [hne, if_true]
        exact ih acc
      · have hne2 : (specModuleDelta m.2.1 m.2.2).isEmpty = false := by
          simpa using hne
        simp only [hne2, Bool.false_eq_true, if_false]
        rw [ih]
        simp

theorem get_dependency_changes_eq (ms : List (String × String × String)) :
    get_dependency_changes ms
      = ms.filterMap
          (fun m =>
            if (specModuleDelta m.2.1 m.2.2).isEmpty then none
            else some (m.1, specModuleDelta m.2.1 m.2.2)) := by
  have h := get_dependency_changes_foldl ms []
  rw [List.nil_append] at h
  exact h

/-! Lemmas about the tree-diff resolver. -/

theorem parseDiffEntries_flatten_cons (r : DiffRecord) (es : List String) :
    parseDiffEntries (flattenRecord r ++ es)
      = (parseDiffEntries es).map
          (fun ad => (addPathsOf r ++ ad.1, delPathsOf r ++ ad.2)) := by
  cases r with
  | add p =>
    have h1 : pyStartsWith "A" "R" = false := rfl
    have h2 : (("A" : String) == "D") = false := rfl
    simp only [flattenRecord, List.cons_append, List.nil_append]
    rw [parseDiffEntries.eq_def]
    cases hes : parseDiffEntries es <;>
      simp [h1, h2, hes, addPathsOf, delPathsOf]
  | change p =>
    have h1 : pyStartsWith "C" "R" = false := rfl
    have h2 : (("C" : String) == "D") = false := rfl
    simp only [flattenRecord, List.cons_append, List.nil_append]
    rw [parseDiffEntries.eq_def]
    cases hes : parseDiffEntries es <;>
      simp [h1, h2, hes, addPathsOf, delPathsOf]
  | modify p =>
    have h1 : pyStartsWith "M" "R" = false := rfl
    have h2 : (("M" : String) == "D") = false := rfl
    simp only [flattenRecord, List.cons_append, List.nil_append]
    rw [parseDiffEntries.eq_def]
    cases hes : parseDiffEntries es <;>
      simp [h1, h2, hes, addPathsOf, delPathsOf]
  | delete p =>
    have h1 : pyStartsWith "D" "R" = false := rfl
    have h2 : (("D" : String) == "D") = true := rfl
    simp only [flattenRecord, List.cons_append, List.nil_append]
    rw [parseDiffEntries.eq_def]
    cases hes : parseDiffEntries es <;>
      simp [h1, h2, hes, addPathsOf, delPathsOf]
  | rename o n =>
    have h1 : pyStartsWith "R100" "R" = true := rfl
    cases hes : parseDiffEntries es <;>
      simp [flattenRecord, parseDiffEntries, h1, hes, addPathsOf, delPathsOf]

theorem parseDiffEntries_flatMap (recs : List DiffRecord) :
    parseDiffEntries (recs.flatMap flattenRecord)
      = some (recs.flatMap addPathsOf, recs.flatMap delPathsOf) := by
  induction recs with
  | nil => rfl
  | cons r t ih =>
    rw [List.flatMap_cons, parseDiffEntries_flatten_cons, ih]
    simp [List.flatMap_cons]

theorem get_file_diff_eq (recs : List DiffRecord) (h : recs ≠ []) :
    get_file_diff recs
      = some (recs.flatMap addPathsOf, recs.flatMap delPathsOf) := by
  cases recs with
  | nil => exact absurd rfl h
  | cons r t => exact parseDiffEntries_flatMap (r :: t)

theorem flatMap_delPathsOf_subset (t : List DiffRecord) :
    (t.flatMap delPathsOf) ⊆ t.flatMap pathsOf := by
  intro a ha
  rw [List.mem_flatMap] at ha ⊢
  obtain ⟨r, hr, hin⟩ := ha
  exact ⟨r, hr, by simp [pathsOf, hin]⟩

theorem flatMap_addPathsOf_subset (t : List DiffRecord) :
    (t.flatMap addPathsOf) ⊆ t.flatMap pathsOf := by
  intro a ha
  rw [List.mem_flatMap] at ha ⊢
  obtain ⟨r, hr, hin⟩ := ha
  exact ⟨r, hr, by simp [pathsOf, hin]⟩

theorem disjoint_addPaths_delPaths (recs : List DiffRecord)
    (hnd : (recs.flatMap pathsOf).Nodup) :
    (recs.flatMap addPathsOf).Disjoint (recs.flatMap delPathsOf) := by
  induction recs with
  | nil => intro a ha; simp at ha
  | cons r t ih =>
    rw [List.flatMap_cons] at hnd
    rw [List.flatMap_cons, List.flatMap_cons]
    simp only [pathsOf] at hnd
    rw [List.append_assoc, List.nodup_append] at hnd
    obtain ⟨hndel, hrest, hdisj0⟩ := hnd
    rw [List.nodup_append] at hrest
    obtain ⟨hnadd, hnt, hdisj1⟩ := hrest
    rw [List.disjoint_append_right] at hdisj0
    obtain ⟨hdisj2, hdisj3⟩ := hdisj0
    rw [List.disjoint_append_left]
    constructor
    · rw [List.disjoint_append_right]
      constructor
      · exact fun a ha hb => hdisj2 hb ha
      · intro a ha hb
        exact hdisj1 ha (flatMap_delPathsOf_subset t hb)
    · rw [List.disjoint_append_right]
      constructor
      · intro a ha hb
        exact hdisj3 hb (flatMap_addPathsOf_subset t ha)
      · exact ih hnt

/-! Lemmas about the ignore filter. -/

theorem contains_iff_mem_str (l : List String) (a : String) :
    l.contains a = true ↔ a ∈ l :=
  ⟨fun h => List.elem_iff.mp h, fun h => List.elem_eq_true_of_mem h⟩

theorem filter_not_contains_filter (spec : String → Bool) (files : List String) :
    files.filter (fun f => !((files.filter spec).contains f))
      = files.filter (fun f => !(spec f)) := by
  apply List.filter_congr
  intro f hf
  have hc : (files.filter spec).contains f = spec f := by
    cases hs : spec f
    · cases hcon : (files.filter spec).contains f
      · rfl
      · exfalso
        have hmem := (contains_iff_mem_str _ _).mp hcon
        have h2 := (List.mem_filter.mp hmem).2
        rw [hs] at h2
        cases h2
    · exact (contains_iff_mem_str _ _).mpr (List.mem_filter.mpr ⟨hf, hs⟩)
  rw [hc]

/-! Lemmas about the Python string order used by the member sort. -/

theorem char_eq_of_toNat_eq (a b : Char) (h : a.toNat = b.toNat) : a = b :=
  Char.ext (UInt32.toNat.inj h)

theorem pyStrLeData_total (xs : List Char) :
    ∀ ys, pyStrLeData xs ys = true ∨ pyStrLeData ys xs = true := by
  induction xs with
  | nil => intro ys; exact Or.inl rfl
  | cons x xs ih =>
    intro ys
    cases ys with
    | nil => exact Or.inr rfl
    | cons y ys =>
      by_cases h1 : x.toNat < y.toNat
      · left; simp [pyStrLeData, h1]
      · by_cases h2 : y.toNat < x.toNat
        · right; simp [pyStrLeData, h2]
        · rcases ih ys with h | h
          · left; simp [pyStrLeData, h1, h2, h]
          · right; simp [pyStrLeData, h1, h2, h]

theorem pyStrLeData_trans (xs ys zs : List Char)
    (h1 : pyStrLeData xs ys = true) (h2 : pyStrLeData ys zs = true) :
    pyStrLeData xs zs = true := by
  induction xs generalizing ys zs with
  | nil => rfl
  | cons x xs ih =>
    cases ys with
    | nil => simp [pyStrLeData] at h1
    | cons y ys =>
      cases zs with
      | nil => simp [pyStrLeData] at h2
      | cons z zs =>
        simp only [pyStrLeData] at h1 h2 ⊢
        by_cases hxz : x.toNat < z.toNat
        · simp [hxz]
        · by_cases hxy : x.toNat < y.toNat
          · by_cases hyz : y.toNat < z.toNat
            · omega
            · by_cases hzy : z.toNat < y.toNat
              · rw [if_neg hyz, if_pos hzy] at h2
                exact absurd h2 (by simp)
              · omega
          · by_cases hyx : y.toNat < x.toNat
            · rw [if_neg hxy, if_pos hyx] at h1
              exact absurd h1 (by simp)
            · rw [if_neg hxy, if_neg hyx] at h1
              by_cases hyz : y.toNat < z.toNat
              · omega
              · by_cases hzy : z.toNat < y.toNat
                · rw [if_neg hyz, if_pos hzy] at h2
                  exact absurd h2 (by simp)
                · rw [if_neg hyz, if_neg hzy] at h2
                  have hzx : ¬z.toNat < x.toNat := by omega
                  rw [if_neg hxz, if_neg hzx]
                  exact ih ys zs h1 h2

theorem pyStrLeData_antisymm (xs : List Char) :
    ∀ ys, pyStrLeData xs ys = true → pyStrLeData ys xs = true → xs = ys := by
  induction xs with
  | nil =>
    intro ys _ h2
    cases ys with
    | nil => rfl
    | cons y ys => simp [pyStrLeData] at h2
  | cons x xs ih =>
    intro ys h1 h2
    cases ys with
    | nil => simp [pyStrLeData] at h1
    | cons y ys =>
      simp only [pyStrLeData] at h1 h2
      by_cases hxy : x.toNat < y.toNat
      · have hyx : ¬y.toNat < x.toNat := by omega
        rw [if_neg hyx, if_pos hxy] at h2
        exact absurd h2 (by simp)
      · by_cases hyx : y.toNat < x.toNat
        · rw [if_neg hxy, if_pos hyx] at h1
          exact absurd h1 (by simp)
        · rw [if_neg hxy, if_neg hyx] at h1
          rw [if_neg hyx, if_neg hxy] at h2
          have hx : x = y := char_eq_of_toNat_eq _ _ (by omega)
          rw [hx, ih ys h1 h2]

instance : IsTotal TarEntry (fun a b => nameLe a b = true) :=
  ⟨fun a b => pyStrLeData_total a.name.data b.name.data⟩

instance : IsTrans TarEntry (fun a b => nameLe a b = true) :=
  ⟨fun a b c h1 h2 => pyStrLeData_trans a.name.data b.name.data c.name.data h1 h2⟩

theorem nameLe_antisymm_name (a b : TarEntry) (h1 : nameLe a b = true)
    (h2 : nameLe b a = true) : a.name = b.name :=
  String.ext (pyStrLeData_antisymm a.name.data b.name.data h1 h2)

theorem sorted_perm_nodup_names_eq (l₁ : List TarEntry) :
    ∀ l₂, l₁.Perm l₂ →
      l₁.Pairwise (fun a b => nameLe a b = true) →
      l₂.Pairwise (fun a b => nameLe a b = true) →
      (l₁.map TarEntry.name).Nodup → l₁ = l₂ := by
  induction l₁ with
  | nil =>
    intro l₂ hperm _ _ _
    exact (hperm.symm.eq_nil).symm
  | cons a t₁ ih =>
    intro l₂ hperm hp₁ hp₂ hnd
    cases l₂ with
    | nil => exact absurd hperm.eq_nil (by simp)
    | cons b t₂ =>
      by_cases hab : a = b
      · subst hab
        rw [List.map_cons] at hnd
        have hnd' := List.nodup_cons.mp hnd
        rw [ih t₂ hperm.cons_inv (List.pairwise_cons.mp hp₁).2
          (List.pairwise_cons.mp hp₂).2 hnd'.2]
      · exfalso
        have ha2 : a ∈ b :: t₂ := hperm.mem_iff.mp (List.mem_cons_self a t₁)
        have hat2 : a ∈ t₂ := by
          rcases List.mem_cons.mp ha2 with h | h
          · exact absurd h hab
          · exact h
        have hb1 : b ∈ a :: t₁ := hperm.symm.mem_iff.mp (List.mem_cons_self b t₂)
        have hbt1 : b ∈ t₁ := by
          rcases List.mem_cons.mp hb1 with h | h
          · exact absurd h.symm hab
          · exact h
        have hr1 : nameLe a b = true := (List.pairwise_cons.mp hp₁).1 b hbt1
        have hr2 : nameLe b a = true := (List.pairwise_cons.mp hp₂).1 a hat2
        have hname : a.name = b.name := nameLe_antisymm_name a b hr1 hr2
        rw [List.map_cons] at hnd
        have hnd' := List.nodup_cons.mp hnd
        exact hnd'.1 (hname ▸ List.mem_map_of_mem TarEntry.name hbt1)

/-! Lemmas about the archive builder. -/

theorem app_name_ne_delete_list (p : String) : ("app/" ++ p) ≠ "delete.list" := by
  intro h
  have hd := congrArg String.data h
  rw [String.data_append] at hd
  have h1 : "app/".data = ['a', 'p', 'p', '/'] := by decide
  have h2 : "delete.list".data
      = ['d', 'e', 'l', 'e', 't', 'e', '.', 'l', 'i', 's', 't'] := by decide
  rw [h1, h2] at hd
  simp at hd

theorem wheels_name_ne_delete_list (p : String) :
    ("wheels/" ++ p) ≠ "delete.list" := by
  intro h
  have hd := congrArg String.data h
  rw [String.data_append] at hd
  have h1 : "wheels/".data = ['w', 'h', 'e', 'e', 'l', 's', '/'] := by decide
  have h2 : "delete.list".data
      = ['d', 'e', 'l', 'e', 't', 'e', '.', 'l', 'i', 's', 't'] := by decide
  rw [h1, h2] at hd
  simp at hd

theorem app_append_injective :
    Function.Injective (fun p : String => "app/" ++ p) := by
  intro p q h
  have hd := congrArg String.data h
  rw [String.data_append, String.data_append] at hd
  exact String.ext (List.append_cancel_left hd)

theorem reset_tarinfo_name (e : TarEntry) :
    (reset_tarinfo e).name = e.name := rfl

theorem reset_tarinfo_content (e : TarEntry) :
    (reset_tarinfo e).content = e.content := rfl

theorem tar_members_names_nodup (contentOf : String → String)
    (fm : List (String × Nat)) (add del : List String) (hnd : add.Nodup) :
    ((add.map (appMember contentOf fm)
        ++ (if del.isEmpty then [] else [deleteMember del])).map
        TarEntry.name).Nodup := by
  rw [List.map_append, List.nodup_append]
  refine ⟨?_, ?_, ?_⟩
  · rw [List.map_map]
    have hco : (TarEntry.name ∘ appMember contentOf fm)
        = fun p => "app/" ++ p := rfl
    rw [hco]
    exact List.Nodup.map app_append_injective hnd
  · cases hdel : del.isEmpty <;> simp
  · intro x hx hy
    rw [List.map_map] at hx
    rcases List.mem_map.mp hx with ⟨p, hp, rfl⟩
    cases hdel : del.isEmpty
    · rw [hdel] at hy
      simp only [Bool.false_eq_true, if_false] at hy
      have : (TarEntry.name ∘ appMember contentOf fm) p = "delete.list" := by
        simpa [deleteMember] using hy
      exact app_name_ne_delete_list p this
    · rw [hdel] at hy
      simp at hy

theorem create_archive_delete_list (contentOf : String → String)
    (lsTreeLines : List String) (files_to_add files_to_delete : List String)
    (wheelsTree : List (String × Nat × String)) (wheelsDirMode : Nat)
    (has_wheels : Bool) :
    (((create_archive contentOf lsTreeLines files_to_add files_to_delete
        wheelsTree wheelsDirMode has_wheels).entries.filter
        (fun e => e.name == "delete.list")).map (fun e => e.content))
      = if files_to_delete.isEmpty then []
        else [String.intercalate "\n" files_to_delete] := by
  unfold create_archive
  dsimp only
  rw [List.filter_append]
  have hwh : ((if has_wheels then
      (wheelMembers wheelsTree wheelsDirMode).map reset_tarinfo
      else []).filter (fun e => e.name == "delete.list")) = [] := by
    cases has_wheels
    · simp
    · simp only [if_true]
      rw [List.filter_eq_nil_iff]
      intro e he
      rcases List.mem_map.mp he with ⟨w, hw, rfl⟩
      simp only [beq_iff_eq, reset_tarinfo_name]
      rcases List.mem_cons.mp hw with h | h
      · rw [h]
        exact (by decide : ("wheels" : String) ≠ "delete.list")
      · rcases List.mem_map.mp h with ⟨t, ht, rfl⟩
        exact wheels_name_ne_delete_list t.1
  rw [hwh, List.append_nil, List.filter_map]
  have hcomp : ((fun e : TarEntry => e.name == "delete.list") ∘ reset_tarinfo)
      = (fun e : TarEntry => e.name == "delete.list") := rfl
  rw [hcomp]
  have hbase : ((files_to_add.map
      (appMember contentOf (buildFileModes lsTreeLines))
        ++ (if files_to_delete.isEmpty then []
            else [deleteMember files_to_delete])).filter
        (fun e => e.name == "delete.list"))
      = if files_to_delete.isEmpty then []
        else [deleteMember files_to_delete] := by
    rw [List.filter_append]
    have h1 : ((files_to_add.map
        (appMember contentOf (buildFileModes lsTreeLines))).filter
        (fun e => e.name == "delete.list")) = [] := by
      rw [List.filter_eq_nil_iff]
      intro e he
      rcases List.mem_map.mp he with ⟨p, hp, rfl⟩
      simp only [beq_iff_eq, appMember]
      exact app_name_ne_delete_list p
    rw [h1, List.nil_append]
    cases hdel : files_to_delete.isEmpty <;> simp [deleteMember]
  have hperm := (List.perm_insertionSort (fun a b => nameLe a b = true)
    (files_to_add.map (appMember contentOf (buildFileModes lsTreeLines))
      ++ (if files_to_delete.isEmpty then []
          else [deleteMember files_to_delete]))).filter
    (fun e => e.name == "delete.list")
  rw [hbase] at hperm
  cases hdel : files_to_delete.isEmpty
  · rw [hdel] at hperm
    simp only [Bool.false_eq_true, if_false] at hperm ⊢
    rw [List.perm_singleton.mp hperm]
    simp [deleteMember, reset_tarinfo]
  · rw [hdel] at hperm
    simp only [if_true] at hperm ⊢
    rw [hperm.eq_nil]
    simp

theorem create_archive_metadata (contentOf : String → String)
    (lsTreeLines : List String) (files_to_add files_to_delete : List String)
    (wheelsTree : List (String × Nat × String)) (wheelsDirMode : Nat)
    (has_wheels : Bool) :
    ∀ e ∈ (create_archive contentOf lsTreeLines files_to_add files_to_delete
        wheelsTree wheelsDirMode has_wheels).entries,
      e.mtime = FIXED_MTIME ∧ e.uid = 0 ∧ e.gid = 0 ∧ e.uname = "root"
        ∧ e.gname = "root" := by
  intro e he
  unfold create_archive at he
  dsimp only at he
  rw [List.mem_append] at he
  rcases he with he | he
  · rcases List.mem_map.mp he with ⟨x, _, rfl⟩
    exact ⟨rfl, rfl, rfl, rfl, rfl⟩
  · cases has_wheels
    · simp at he
    · simp only [if_true] at he
      rcases List.mem_map.mp he with ⟨x, _, rfl⟩
      exact ⟨rfl, rfl, rfl, rfl, rfl⟩

theorem create_archive_perm (contentOf : String → String)
    (lsTreeLines : List String) (add₁ add₂ del : List String)
    (wheelsTree : List (String × Nat × String)) (wheelsDirMode : Nat)
    (has_wheels : Bool) (hperm : add₁.Perm add₂) (hnd : add₁.Nodup) :
    create_archive contentOf lsTreeLines add₁ del wheelsTree wheelsDirMode
        has_wheels
      = create_archive contentOf lsTreeLines add₂ del wheelsTree wheelsDirMode
        has_wheels := by
  unfold create_archive
  dsimp only
  congr 1
  congr 1
  congr 1
  apply sorted_perm_nodup_names_eq
  · exact ((List.perm_insertionSort _ _).trans
      ((hperm.map _).append_right _)).trans (List.perm_insertionSort _ _).symm
  · exact List.sorted_insertionSort _ _
  · exact List.sorted_insertionSort _ _
  · have hp := (List.perm_insertionSort (fun a b => nameLe a b = true)
      (add₁.map (appMember contentOf (buildFileModes lsTreeLines))
        ++ (if del.isEmpty then [] else [deleteMember del]))).map TarEntry.name
    exact hp.nodup_iff.mpr
      (tar_members_names_nodup contentOf (buildFileModes lsTreeLines)
        add₁ del hnd)

theorem lookupDict_of_mem_nodup {α : Type} (d : List (String × α))
    (pv : String × α) (hnd : (d.map Prod.fst).Nodup) (hm : pv ∈ d) :
    lookupDict d pv.1 = some pv.2 := by
  induction d with
  | nil => cases hm
  | cons q rest ih =>
    rw [List.map_cons] at hnd
    have hnd' := List.nodup_cons.mp hnd
    rcases List.mem_cons.mp hm with h | h
    · rw [h, lookupDict_cons, if_pos rfl]
    · rw [lookupDict_cons]
      have hq : q.1 ≠ pv.1 := by
        intro he
        exact hnd'.1 (he ▸ List.mem_map_of_mem Prod.fst h)
      rw [if_neg hq]
      exact ih hnd'.2 h

theorem specModuleDelta_self (c : String) : specModuleDelta c c = [] := by
  unfold specModuleDelta
  rw [List.map_eq_nil_iff, List.filter_eq_nil_iff]
  intro pv hm
  simp [lookupDict_of_mem_nodup _ pv (nodup_keys_parse_requirements c) hm]

/-! Claim theorems. -/

/-- C1 (counterexample): two concrete runs refute the claim.  First, with
an empty add-set, no fetched artifact and the non-empty delete-set
`["x.txt"]`, the incremental run is a no-op and writes no archive,
although the claim's condition (delete-set non-empty) demands an archive:
the archive-written decision of `main` tests only
`final_files_to_add or has_wheels`.  Second, for an empty diff (identical
trees — the claim's all-three-empty no-op case), the run is not a
successful no-op: the parser hits Python's IndexError on the token list
`[""]` and the run exits fatally. -/
theorem c1_delete_only_noop :
    runDeltaPackaging (fun _ => "") [] [DiffRecord.delete "x.txt"] [] 0 false
        none = RunOutcome.noop
    ∧ get_file_diff [DiffRecord.delete "x.txt"] = some ([], ["x.txt"])
    ∧ (["x.txt"] : List String) ≠ []
    ∧ runDeltaPackaging (fun _ => "") [] [] [] 0 false none = RunOutcome.fatal
    ∧ get_file_diff [] = none :=
  ⟨by decide, by decide, by decide, by decide, by decide⟩

/-- C1 (amended): for a non-empty diff, an archive is written if and only
if the ignore-filtered add-set is non-empty or at least one binary
artifact was fetched; the delete-set plays no part in the decision, and
when the filtered add-set is empty and nothing was fetched the run is
reported as a no-op even if the delete-set is non-empty.  For an empty
diff (identical trees — the canonical no-changes case) the run does not
succeed as a no-op at all: the diff parser's IndexError on the token list
`[""]` makes the run fatal. -/
theorem c1_archive_written_iff (contentOf : String → String)
    (lsTreeLines : List String) (recs : List DiffRecord)
    (wheelsTree : List (String × Nat × String)) (wheelsDirMode : Nat)
    (has_wheels : Bool) (distignore : Option (String → Bool)) :
    (∀ add del, get_file_diff recs = some (add, del) →
      ((runDeltaPackaging contentOf lsTreeLines recs wheelsTree wheelsDirMode
          has_wheels distignore
        = RunOutcome.created
            (create_archive contentOf lsTreeLines
              (filter_files_with_distignore distignore add).files del
              wheelsTree wheelsDirMode has_wheels)
        ↔ ((filter_files_with_distignore distignore add).files ≠ []
            ∨ has_wheels = true))
      ∧ (runDeltaPackaging contentOf lsTreeLines recs wheelsTree wheelsDirMode
          has_wheels distignore = RunOutcome.noop
        ↔ ((filter_files_with_distignore distignore add).files = []
            ∧ has_wheels = false))))
    ∧ (recs = [] →
        runDeltaPackaging contentOf lsTreeLines recs wheelsTree wheelsDirMode
          has_wheels distignore = RunOutcome.fatal) := by
  constructor
  · intro add del h
    unfold runDeltaPackaging
    simp only [h]
    by_cases hc : (!((filter_files_with_distignore distignore
        add).files).isEmpty || has_wheels) = true
    · rw [if_pos hc]
      rw [Bool.or_eq_true, Bool.not_eq_true', List.isEmpty_eq_false] at hc
      refine ⟨⟨fun _ => hc, fun _ => rfl⟩, ⟨fun hcon => ?_, fun hrhs => ?_⟩⟩
      · cases hcon
      · rcases hc with h1 | h1
        · exact absurd hrhs.1 h1
        · rw [hrhs.2] at h1; cases h1
    · rw [if_neg hc]
      have hc2 : (!((filter_files_with_distignore distignore
          add).files).isEmpty || has_wheels) = false := by simpa using hc
      rw [Bool.or_eq_false_iff, Bool.not_eq_false', List.isEmpty_iff] at hc2
      refine ⟨⟨fun hcon => ?_, fun hrhs => ?_⟩, ⟨fun _ => hc2, fun _ => rfl⟩⟩
      · cases hcon
      · rcases hrhs with h1 | h1
        · exact absurd hc2.1 h1
        · rw [h1] at hc2; rcases hc2 with ⟨_, h2⟩; cases h2
  · intro hrecs
    subst hrecs
    rfl

/-- Witness for the amended C1 at concrete inputs: one added file for the
iff part, the empty diff for the fatal part. -/
theorem c1_archive_written_iff_witness :
    (get_file_diff [DiffRecord.add "a.txt"] = some (["a.txt"], []))
    ∧ ((runDeltaPackaging (fun _ => "") [] [DiffRecord.add "a.txt"] [] 0 false
          none
        = RunOutcome.created
            (create_archive (fun _ => "") []
              (filter_files_with_distignore none ["a.txt"]).files [] [] 0 false)
        ↔ ((filter_files_with_distignore none ["a.txt"]).files ≠ []
            ∨ false = true))
      ∧ (runDeltaPackaging (fun _ => "") [] [DiffRecord.add "a.txt"] [] 0 false
          none = RunOutcome.noop
        ↔ ((filter_files_with_distignore none ["a.txt"]).files = []
            ∧ false = false)))
    ∧ runDeltaPackaging (fun _ => "") [] [] [] 0 false none
        = RunOutcome.fatal :=
  ⟨by decide,
   (c1_archive_written_iff (fun _ => "") [] [DiffRecord.add "a.txt"] [] 0 false
     none).1 ["a.txt"] [] (by decide),
   (c1_archive_written_iff (fun _ => "") [] [] [] 0 false none).2 rfl⟩

/-- C2: in delta mode the result of the dependency resolver maps every
module to exactly the pins of its new manifest whose name is absent from
the old manifest or whose version differs, in manifest order; a module
with an empty delta (in particular one with identical manifests)
contributes no entry at all; and on the spec's scenario (old `a==1.0`,
new `a==2.0`/`b==1.0`) the delta is `{root: [a==2.0, b==1.0]}`. -/
theorem c2_dependency_delta (ms : List (String × String × String)) :
    get_dependency_changes ms
      = ms.filterMap
          (fun m =>
            if (specModuleDelta m.2.1 m.2.2).isEmpty then none
            else some (m.1, specModuleDelta m.2.1 m.2.2))
    ∧ (∀ c : String, specModuleDelta c c = [])
    ∧ get_dependency_changes [("root", "a==1.0", "a==2.0\nb==1.0")]
      = [("root", ["a==2.0", "b==1.0"])] :=
  ⟨get_dependency_changes_eq ms, specModuleDelta_self, by decide⟩

/-- C3: for every non-empty sequence of diff-tree records whose mentioned
paths are pairwise distinct (as git guarantees for a single diff), the
resolver returns the add-set and delete-set record by record, the two
sets are disjoint, every Add/Change/Modify path lands in the add-set,
every Delete path in the delete-set, and a Rename puts exactly its old
path in the delete-set and its new path in the add-set, never both paths
in the same set. -/
theorem c3_file_diff_partition (recs : List DiffRecord)
    (hne : recs ≠ []) (hnd : (recs.flatMap pathsOf).Nodup) :
    get_file_diff recs
        = some (recs.flatMap addPathsOf, recs.flatMap delPathsOf)
    ∧ (recs.flatMap addPathsOf).Disjoint (recs.flatMap delPathsOf)
    ∧ (∀ p, DiffRecord.add p ∈ recs → p ∈ recs.flatMap addPathsOf)
    ∧ (∀ p, DiffRecord.change p ∈ recs → p ∈ recs.flatMap addPathsOf)
    ∧ (∀ p, DiffRecord.modify p ∈ recs → p ∈ recs.flatMap addPathsOf)
    ∧ (∀ p, DiffRecord.delete p ∈ recs → p ∈ recs.flatMap delPathsOf)
    ∧ (∀ o n, DiffRecord.rename o n ∈ recs →
        o ∈ recs.flatMap delPathsOf ∧ n ∈ recs.flatMap addPathsOf
          ∧ o ∉ recs.flatMap addPathsOf ∧ n ∉ recs.flatMap delPathsOf) := by
  have hdisj := disjoint_addPaths_delPaths recs hnd
  refine ⟨get_file_diff_eq recs hne, hdisj, ?_, ?_, ?_, ?_, ?_⟩
  · intro p hp
    exact List.mem_flatMap.mpr ⟨_, hp, by simp [addPathsOf]⟩
  · intro p hp
    exact List.mem_flatMap.mpr ⟨_, hp, by simp [addPathsOf]⟩
  · intro p hp
    exact List.mem_flatMap.mpr ⟨_, hp, by simp [addPathsOf]⟩
  · intro p hp
    exact List.mem_flatMap.mpr ⟨_, hp, by simp [delPathsOf]⟩
  · intro o n hr
    have hdel : o ∈ recs.flatMap delPathsOf :=
      List.mem_flatMap.mpr ⟨_, hr, by simp [delPathsOf]⟩
    have hadd : n ∈ recs.flatMap addPathsOf :=
      List.mem_flatMap.mpr ⟨_, hr, by simp [addPathsOf]⟩
    exact ⟨hdel, hadd, fun hcon => hdisj hcon hdel,
      fun hcon => hdisj hadd hcon⟩

/-- Witness for C3 at a concrete record sequence containing an add, a
rename and a delete. -/
theorem c3_file_diff_partition_witness :
    ([DiffRecord.add "a.txt", DiffRecord.rename "x.txt" "y.txt",
        DiffRecord.delete "old.txt"] ≠ ([] : List DiffRecord))
    ∧ (([DiffRecord.add "a.txt", DiffRecord.rename "x.txt" "y.txt",
        DiffRecord.delete "old.txt"].flatMap pathsOf).Nodup)
    ∧ (get_file_diff [DiffRecord.add "a.txt",
          DiffRecord.rename "x.txt" "y.txt", DiffRecord.delete "old.txt"]
        = some ([DiffRecord.add "a.txt", DiffRecord.rename "x.txt" "y.txt",
            DiffRecord.delete "old.txt"].flatMap addPathsOf,
          [DiffRecord.add "a.txt", DiffRecord.rename "x.txt" "y.txt",
            DiffRecord.delete "old.txt"].flatMap delPathsOf)
      ∧ ([DiffRecord.add "a.txt", DiffRecord.rename "x.txt" "y.txt",
          DiffRecord.delete "old.txt"].flatMap addPathsOf).Disjoint
          ([DiffRecord.add "a.txt", DiffRecord.rename "x.txt" "y.txt",
            DiffRecord.delete "old.txt"].flatMap delPathsOf)
      ∧ (∀ p, DiffRecord.add p ∈ [DiffRecord.add "a.txt",
            DiffRecord.rename "x.txt" "y.txt", DiffRecord.delete "old.txt"] →
          p ∈ [DiffRecord.add "a.txt", DiffRecord.rename "x.txt" "y.txt",
            DiffRecord.delete "old.txt"].flatMap addPathsOf)
      ∧ (∀ p, DiffRecord.change p ∈ [DiffRecord.add "a.txt",
            DiffRecord.rename "x.txt" "y.txt", DiffRecord.delete "old.txt"] →
          p ∈ [DiffRecord.add "a.txt", DiffRecord.rename "x.txt" "y.txt",
            DiffRecord.delete "old.txt"].flatMap addPathsOf)
      ∧ (∀ p, DiffRecord.modify p ∈ [DiffRecord.add "a.txt",
            DiffRecord.rename "x.txt" "y.txt", DiffRecord.delete "old.txt"] →
          p ∈ [DiffRecord.add "a.txt", DiffRecord.rename "x.txt" "y.txt",
            DiffRecord.delete "old.txt"].flatMap addPathsOf)
      ∧ (∀ p, DiffRecord.delete p ∈ [DiffRecord.add "a.txt",
            DiffRecord.rename "x.txt" "y.txt", DiffRecord.delete "old.txt"] →
          p ∈ [DiffRecord.add "a.txt", DiffRecord.rename "x.txt" "y.txt",
            DiffRecord.delete "old.txt"].flatMap delPathsOf)
      ∧ (∀ o n, DiffRecord.rename o n ∈ [DiffRecord.add "a.txt",
            DiffRecord.rename "x.txt" "y.txt", DiffRecord.delete "old.txt"] →
          o ∈ [DiffRecord.add "a.txt", DiffRecord.rename "x.txt" "y.txt",
            DiffRecord.delete "old.txt"].flatMap delPathsOf
          ∧ n ∈ [DiffRecord.add "a.txt", DiffRecord.rename "x.txt" "y.txt",
              DiffRecord.delete "old.txt"].flatMap addPathsOf
          ∧ o ∉ [DiffRecord.add "a.txt", DiffRecord.rename "x.txt" "y.txt",
              DiffRecord.delete "old.txt"].flatMap addPathsOf
          ∧ n ∉ [DiffRecord.add "a.txt", DiffRecord.rename "x.txt" "y.txt",
              DiffRecord.delete "old.txt"].flatMap delPathsOf)) :=
  ⟨by decide, by decide,
   c3_file_diff_partition _ (by decide) (by decide)⟩

/-- C4: for fixed logical inputs the archive builder's output is a pure
function of those inputs and does not depend on the enumeration order of
the add-set (two runs over permuted add-sets with distinct paths yield
identical output); the gzip container timestamp is forced to the fixed
instant, and every member written carries the fixed modification time,
numeric owner/group zero and symbolic owner/group "root". -/
theorem c4_deterministic_archive (contentOf : String → String)
    (lsTreeLines : List String) (add₁ add₂ del : List String)
    (wheelsTree : List (String × Nat × String)) (wheelsDirMode : Nat)
    (has_wheels : Bool) (hperm : add₁.Perm add₂) (hnd : add₁.Nodup) :
    create_archive contentOf lsTreeLines add₁ del wheelsTree wheelsDirMode
        has_wheels
      = create_archive contentOf lsTreeLines add₂ del wheelsTree wheelsDirMode
        has_wheels
    ∧ (create_archive contentOf lsTreeLines add₁ del wheelsTree wheelsDirMode
        has_wheels).gzipMtime = FIXED_MTIME
    ∧ ∀ e ∈ (create_archive contentOf lsTreeLines add₁ del wheelsTree
        wheelsDirMode has_wheels).entries,
        e.mtime = FIXED_MTIME ∧ e.uid = 0 ∧ e.gid = 0 ∧ e.uname = "root"
          ∧ e.gname = "root" :=
  ⟨create_archive_perm contentOf lsTreeLines add₁ add₂ del wheelsTree
      wheelsDirMode has_wheels hperm hnd,
   rfl,
   create_archive_metadata contentOf lsTreeLines add₁ del wheelsTree
     wheelsDirMode has_wheels⟩

/-- Witness for C4 at a concrete input: the add-set enumerated in two
different orders. -/
theorem c4_deterministic_archive_witness :
    (["b.txt", "a.txt"] : List String).Perm ["a.txt", "b.txt"]
    ∧ (create_archive (fun _ => "c") [] ["b.txt", "a.txt"] ["x.txt"] [] 0 true
          = create_archive (fun _ => "c") [] ["a.txt", "b.txt"] ["x.txt"] [] 0
            true
      ∧ (create_archive (fun _ => "c") [] ["b.txt", "a.txt"] ["x.txt"] [] 0
          true).gzipMtime = FIXED_MTIME
      ∧ ∀ e ∈ (create_archive (fun _ => "c") [] ["b.txt", "a.txt"] ["x.txt"]
          [] 0 true).entries,
          e.mtime = FIXED_MTIME ∧ e.uid = 0 ∧ e.gid = 0 ∧ e.uname = "root"
            ∧ e.gname = "root") :=
  ⟨by decide,
   c4_deterministic_archive (fun _ => "c") [] ["b.txt", "a.txt"]
     ["a.txt", "b.txt"] ["x.txt"] [] 0 true (by decide) (by decide)⟩

/-- C5: evaluation at the failing input.  For the add-set path
`my file.txt`, recorded in git with mode 100755, the mode dict is keyed by
`line.split()[3]`, which is just `my`, so the lookup misses and the member
is written with the `0o644` fallback instead of the recorded mode. -/
theorem c5_space_path_mode_fallback :
    ((create_archive (fun _ => "content") ["100755 blob 1234\tmy file.txt"]
        ["my file.txt"] [] [] 0 false).entries.map (fun e => (e.name, e.mode)))
      = [("app/my file.txt", 0o644)]
    ∧ lookupDict (buildFileModes ["100755 blob 1234\tmy file.txt"])
        "my file.txt" = none
    ∧ lookupDict (buildFileModes ["100755 blob 1234\tmy file.txt"]) "my"
        = some 0o100755
    ∧ (0o644 : Nat) ≠ 0o100755
    ∧ (0o644 : Nat) ≠ 0o755 :=
  ⟨by decide, by decide, by decide, by decide, by decide⟩

/-- C6: in snapshot (full) mode the final add-set is exactly the complete
file listing of the target revision minus the paths removed by the ignore
filter, and the delete-set is the empty list, so no `delete.list` member
is ever present in a snapshot archive. -/
theorem c6_snapshot_completeness (contentOf : String → String)
    (lsTreeLines : List String) (allFiles : List String)
    (wheelsTree : List (String × Nat × String)) (wheelsDirMode : Nat)
    (has_wheels : Bool) (distignore : Option (String → Bool)) :
    (filter_files_with_distignore distignore allFiles).files
        = specSnapshotAddSet allFiles distignore
    ∧ (∀ out, runFullPackaging contentOf lsTreeLines allFiles wheelsTree
          wheelsDirMode has_wheels distignore = some out →
        out.entries.filter (fun e => e.name == "delete.list") = []) := by
  constructor
  · cases distignore with
    | none => rfl
    | some spec =>
      simp only [filter_files_with_distignore, specSnapshotAddSet]
      exact filter_not_contains_filter spec allFiles
  · intro out hout
    unfold runFullPackaging at hout
    dsimp only at hout
    by_cases hc : (!((filter_files_with_distignore distignore
        allFiles).files).isEmpty || has_wheels) = true
    · rw [if_pos hc] at hout
      injection hout with h
      have hdl := create_archive_delete_list contentOf lsTreeLines
        (filter_files_with_distignore distignore allFiles).files []
        wheelsTree wheelsDirMode has_wheels
      rw [h] at hdl
      simp only [List.isEmpty_nil, if_true] at hdl
      exact List.map_eq_nil_iff.mp hdl
    · rw [if_neg hc] at hout
      cases hout

/-- Witness for C6 at a concrete snapshot input. -/
theorem c6_snapshot_completeness_witness :
    ((filter_files_with_distignore none ["a.txt"]).files
        = specSnapshotAddSet ["a.txt"] none)
    ∧ ((create_archive (fun _ => "") [] ["a.txt"] [] [] 0 false).entries.filter
        (fun e => e.name == "delete.list") = []) :=
  ⟨(c6_snapshot_completeness (fun _ => "") [] ["a.txt"] [] 0 false none).1,
   (c6_snapshot_completeness (fun _ => "") [] ["a.txt"] [] 0 false none).2
     _ (by decide)⟩

/-- C7: the archive contains a member named `delete.list` exactly when the
delete-set is non-empty, that member is unique, and its content is the
delete-set paths newline-joined in their original insertion order. -/
theorem c7_delete_list_member (contentOf : String → String)
    (lsTreeLines : List String) (files_to_add files_to_delete : List String)
    (wheelsTree : List (String × Nat × String)) (wheelsDirMode : Nat)
    (has_wheels : Bool) :
    (((create_archive contentOf lsTreeLines files_to_add files_to_delete
        wheelsTree wheelsDirMode has_wheels).entries.filter
        (fun e => e.name == "delete.list")).map (fun e => e.content))
      = if files_to_delete.isEmpty then []
        else [String.intercalate "\n" files_to_delete] :=
  create_archive_delete_list contentOf lsTreeLines files_to_add
    files_to_delete wheelsTree wheelsDirMode has_wheels

/-- C8: the delete-set reaches the archive unfiltered under every ignore
configuration (the deletion-manifest content is always the parser's
delete-set, whatever the ignore rules), and a missing exclude-pattern
document leaves the add-set completely unchanged while raising the
warning flag rather than failing. -/
theorem c8_ignore_frame (contentOf : String → String)
    (lsTreeLines : List String) (recs : List DiffRecord)
    (wheelsTree : List (String × Nat × String)) (wheelsDirMode : Nat)
    (has_wheels : Bool) (distignore : Option (String → Bool))
    (add del : List String) (h : get_file_diff recs = some (add, del)) :
    (∀ out, runDeltaPackaging contentOf lsTreeLines recs wheelsTree
          wheelsDirMode has_wheels distignore = RunOutcome.created out →
        ((out.entries.filter (fun e => e.name == "delete.list")).map
          (fun e => e.content))
          = if del.isEmpty then [] else [String.intercalate "\n" del])
    ∧ (∀ files, filter_files_with_distignore none files
        = { files := files, warned := true }) := by
  constructor
  · intro out hout
    unfold runDeltaPackaging at hout
    rw [h] at hout
    dsimp only at hout
    by_cases hc : (!((filter_files_with_distignore distignore
        add).files).isEmpty || has_wheels) = true
    · rw [if_pos hc] at hout
      injection hout with h2
      rw [← h2]
      exact create_archive_delete_list contentOf lsTreeLines
        (filter_files_with_distignore distignore add).files del wheelsTree
        wheelsDirMode has_wheels
    · rw [if_neg hc] at hout
      cases hout
  · intro files
    rfl

/-- Witness for C8 at a concrete input with one added and one deleted
file and no ignore document. -/
theorem c8_ignore_frame_witness :
    (((create_archive (fun _ => "") [] ["a.txt"] ["x.txt"] [] 0
        false).entries.filter (fun e => e.name == "delete.list")).map
        (fun e => e.content)
      = if (["x.txt"] : List String).isEmpty then []
        else [String.intercalate "\n" ["x.txt"]])
    ∧ (filter_files_with_distignore none ["f.txt"]
        = { files := ["f.txt"], warned := true }) :=
  ⟨(c8_ignore_frame (fun _ => "") [] [DiffRecord.add "a.txt",
      DiffRecord.delete "x.txt"] [] 0 false none ["a.txt"] ["x.txt"]
      (by decide)).1 _ (by decide),
   (c8_ignore_frame (fun _ => "") [] [DiffRecord.add "a.txt",
      DiffRecord.delete "x.txt"] [] 0 false none ["a.txt"] ["x.txt"]
      (by decide)).2 ["f.txt"]⟩

/-- C9: applying the ignore filter to its own output under the same rules
returns the same result: no further exclusions on the second pass, for
present rules as well as for a missing exclude document. -/
theorem c9_ignore_idempotent (distignore : Option (String → Bool))
    (files : List String) :
    filter_files_with_distignore distignore
        ((filter_files_with_distignore distignore files).files)
      = filter_files_with_distignore distignore files := by
  cases distignore with
  | none => rfl
  | some spec =>
    simp only [filter_files_with_distignore]
    congr 1
    rw [filter_not_contains_filter, filter_not_contains_filter,
      List.filter_filter]
    apply List.filter_congr
    intro a _
    exact Bool.and_self _

/-- C10: the manifest parser keeps one entry per package name bound to the
last well-formed occurrence's version (its lookup result is the last
matching `name==version` line), its key list is duplicate-free, and
consequently every module delta produced by the dependency resolver is a
formatting of pairs with pairwise-distinct package names. -/
theorem c10_duplicate_pins_last_wins :
    (∀ content, ((parse_requirements content).map Prod.fst).Nodup)
    ∧ (∀ content name, lookupDict (parse_requirements content) name
        = ((wellFormedPairs content).reverse.find?
            (fun pv => pv.1 == name)).map Prod.snd)
    ∧ (∀ (ms : List (String × String × String)) (dir : String)
        (chs : List String), (dir, chs) ∈ get_dependency_changes ms →
        ∃ ps : List (String × String), (ps.map Prod.fst).Nodup
          ∧ chs = ps.map (fun pv => pv.1 ++ "==" ++ pv.2)) := by
  refine ⟨nodup_keys_parse_requirements, lookupDict_parse_requirements, ?_⟩
  intro ms dir chs hmem
  rw [get_dependency_changes_eq] at hmem
  rcases List.mem_filterMap.mp hmem with ⟨m, hm, hf⟩
  by_cases he : (specModuleDelta m.2.1 m.2.2).isEmpty = true
  · rw [if_pos he] at hf
    cases hf
  · rw [if_neg he] at hf
    injection hf with hf1
    refine ⟨(parse_requirements m.2.2).filter
      (fun pv =>
        !(lookupDict (parse_requirements m.2.1) pv.1 == some pv.2)), ?_, ?_⟩
    · exact List.Nodup.sublist
        ((List.filter_sublist _).map Prod.fst)
        (nodup_keys_parse_requirements m.2.2)
    · have hf2 := congrArg Prod.snd hf1
      dsimp at hf2
      rw [← hf2]
      rfl

/-- Witness for C10: a manifest repeating package `a`, whose delta keeps a
single `a` pin at the later version. -/
theorem c10_duplicate_pins_last_wins_witness :
    ∃ ps : List (String × String), (ps.map Prod.fst).Nodup
      ∧ ["a==2.0"] = ps.map (fun pv => pv.1 ++ "==" ++ pv.2) :=
  c10_duplicate_pins_last_wins.2.2 [("root", "", "a==1.0\na==2.0")] "root"
    ["a==2.0"] (by decide)

end CreatePackage
